import Mathlib

/-!
Verification of `stevedore.enabled.EnabledExtensionManager`
(src/stevedore/enabled.py) against its natural-language specification.

The file shallowly embeds the code of `enabled.py`.  The base class
`ExtensionManager` (module `stevedore.extension`) is not part of the
source excerpt; the parts of its behaviour that the claims depend on
(the per-entry construction loop, the base test-instance constructor
and the `map` operation) are modelled from the specification and are
marked `Modelled from the spec:` in their doc comments.

Exceptions are modelled with `Except String`, logging with an explicit
list of emitted log records, and Python's `None`-or-Extension results
with `Option Extension`.
-/

namespace Stevedore

/-- Modelled from the spec: the `Extension` value type of
`stevedore.extension` (not under src/).  Per spec section 3 it pairs a
`name` with the loaded `plugin` object and an optional invocation
result `obj` (present iff invoke-on-load was requested).  Plugin
objects are opaque to the claims and are represented by `Nat`. -/
structure Extension where
  name : String
  plugin : Nat
  obj : Option Nat
deriving Repr, DecidableEq

/-- Modelled from the spec: the outcome of the BASE per-entry loading
step (`ExtensionManager._load_one_plugin`, not under src/) for one
discovered entry.  Per spec section 4.2 a loading attempt may produce
an `Extension`, may legitimately yield "no extension" (a skip), or may
fail unexpectedly. -/
inductive BaseLoadResult where
  | produced (ext : Extension)
  | skipped
  | loadFailed
deriving Repr, DecidableEq

/-- Modelled from the spec: an entry descriptor delivered by the
external discovery collaborator (spec section 6): a `name` plus the
behaviour of the base loader on it, which is all the subclass under
verification can observe of it. -/
structure EntryPoint where
  name : String
  baseResult : BaseLoadResult
deriving Repr, DecidableEq

inductive LogLevel where
  | debug
  | error
deriving Repr, DecidableEq

/-- One record emitted on the module logger `LOG`. -/
structure LogRecord where
  level : LogLevel
  message : String
deriving Repr, DecidableEq

/-- The debug record emitted by `EnabledExtensionManager._load_one_plugin`
for a rejected entry: `LOG.debug('ignoring extension %r', ep.name)`. -/
def ignoreRecord (name : String) : LogRecord :=
  { level := .debug, message := "ignoring extension " ++ name }

/-- Modelled from the spec: the warning/error-level record the base
construction loop emits for a load failure (spec section 6). -/
def loadFailureRecord (name : String) : LogRecord :=
  { level := .error, message := "could not load " ++ name }

/-- A check function.  Python callables may raise, so the result is
`Except String Bool`; `.error e` models the predicate raising `e`. -/
abbrev CheckFunc : Type := Extension → Except String Bool

/-- A total (never-raising) predicate wrapped as a check function. -/
def pureCheck (p : Extension → Bool) : CheckFunc :=
  fun ext => Except.ok (p ext)

/-- Errors that can escape a `_load_one_plugin` call: a failure of the
base loading step, or an exception raised by the check function. -/
inductive PluginErr where
  | loadFailure
  | checkFailure (e : String)
deriving Repr, DecidableEq

/-- `EnabledExtensionManager._load_one_plugin` (src/stevedore/enabled.py
lines 84-91): call the base loader; if it produced a (truthy) extension
and `check_func` returns false, log the debug note and return `None`;
otherwise return the base result unchanged.  Exceptions of the base
loader and of `check_func` are not caught here.  The second component
is the list of log records the call emits. -/
def load_one_plugin (check_func : CheckFunc) (ep : EntryPoint) :
    Except PluginErr (Option Extension × List LogRecord) :=
  match ep.baseResult with
  | .loadFailed => .error .loadFailure
  | .skipped => .ok (none, [])
  | .produced ext =>
    match check_func ext with
    | .error e => .error (.checkFailure e)
    | .ok b =>
      if b then .ok (some ext, [])
      else .ok (none, [ignoreRecord ep.name])

/-- The attribute state of an `EnabledExtensionManager` instance while
`__init__` runs.  `check_func` starts unset; reading it before the
assignment `self.check_func = check_func` would raise `AttributeError`
(modelled as `none`). -/
structure SelfState where
  check_func : Option CheckFunc

/-- The instance state at the start of `__init__`, before any
assignment: no `check_func` attribute yet. -/
def initialSelf : SelfState := { check_func := none }

/-- The assignment `self.check_func = check_func` (enabled.py line 42),
the first statement of `EnabledExtensionManager.__init__`. -/
def assignCheckFunc (s : SelfState) (check_func : CheckFunc) : SelfState :=
  { s with check_func := some check_func }

/-- `_load_one_plugin` as dispatched on the instance during base
construction: it reads `self.check_func`.  If the attribute is unset
the read raises (an `AttributeError`, which the spec-modelled loop does
not treat as a per-entry load failure). -/
def load_one_plugin_dispatch (s : SelfState) (ep : EntryPoint) :
    Except PluginErr (Option Extension × List LogRecord) :=
  match s.check_func with
  | none => .error (.checkFailure "AttributeError: check_func")
  | some cf => load_one_plugin cf ep

/-- Modelled from the spec: the base `ExtensionManager` construction
loop (`_load_plugins` of stevedore.extension, not under src/).  Per
spec section 4.2 it calls the (overridden) per-entry loader on each
discovered entry in order; an unexpected load failure of one entry is
logged and that entry skipped while loading continues; entries that
yield no extension are silently omitted; surviving Extensions are
stored in discovery order.  Per spec sections 4.3 and 7 an exception
raised by the check function is not absorbed and surfaces to the
caller, aborting construction. -/
def load_plugins (loadOne : EntryPoint → Except PluginErr (Option Extension × List LogRecord)) :
    List EntryPoint → Except String (List Extension × List LogRecord)
  | [] => .ok ([], [])
  | ep :: rest =>
    match loadOne ep with
    | .error (.checkFailure e) => .error e
    | .error .loadFailure =>
      match load_plugins loadOne rest with
      | .error e => .error e
      | .ok (exts, logs) => .ok (exts, loadFailureRecord ep.name :: logs)
    | .ok (optExt, entryLogs) =>
      match load_plugins loadOne rest with
      | .error e => .error e
      | .ok (exts, logs) => .ok (optExt.toList ++ exts, entryLogs ++ logs)

/-- The manager object.  `check_func` is `Option`al because the base
test-instance constructor builds the object without that attribute and
`make_test_instance` sets it afterwards. -/
structure EnabledExtensionManager where
  extensions : List Extension
  propagate_map_exceptions : Bool
  check_func : Option CheckFunc

/-- Modelled from the spec: `ExtensionManager.make_test_instance`
(not under src/).  Per spec section 4.2 it skips discovery and loading
entirely and stores the given list directly. -/
def base_make_test_instance (extensions : List Extension)
    (propagate_map_exceptions : Bool) : EnabledExtensionManager :=
  { extensions := extensions
    propagate_map_exceptions := propagate_map_exceptions
    check_func := none }

/-- The list comprehension of `make_test_instance` (enabled.py lines
75-76): `[extension for extension in available_extensions if
check_func(extension)]`.  An exception raised by `check_func`
propagates out of the comprehension; no log record is emitted. -/
def filterByCheck (check_func : CheckFunc) :
    List Extension → Except String (List Extension)
  | [] => .ok []
  | x :: xs =>
    match check_func x with
    | .error e => .error e
    | .ok b =>
      match filterByCheck check_func xs with
      | .error e => .error e
      | .ok ys => .ok (if b then x :: ys else ys)

/-- `EnabledExtensionManager.make_test_instance` (enabled.py lines
50-82): filter `available_extensions` with `check_func`, delegate to
the base test-instance constructor, then set `o.check_func`.  The
second component of a successful result is the list of log records the
call emits (this path contains no logging calls). -/
def make_test_instance (available_extensions : List Extension)
    (check_func : CheckFunc) (propagate_map_exceptions : Bool) :
    Except String (EnabledExtensionManager × List LogRecord) :=
  match filterByCheck check_func available_extensions with
  | .error e => .error e
  | .ok extensions =>
    let o := base_make_test_instance extensions propagate_map_exceptions
    .ok ({ o with check_func := some check_func }, [])

/-- `EnabledExtensionManager.__init__` (enabled.py lines 38-48): first
assign `self.check_func`, then invoke the base constructor, which
performs discovery and per-entry loading through the overridden
`_load_one_plugin` dispatched on the instance state. -/
def EnabledExtensionManager.init (check_func : CheckFunc)
    (eps : List EntryPoint) (propagate_map_exceptions : Bool) :
    Except String (EnabledExtensionManager × List LogRecord) :=
  let self := assignCheckFunc initialSelf check_func
  match load_plugins (load_one_plugin_dispatch self) eps with
  | .error e => .error e
  | .ok (exts, logs) =>
    .ok ({ extensions := exts
           propagate_map_exceptions := propagate_map_exceptions
           check_func := self.check_func }, logs)

/-- The log record the spec-modelled `map` emits when `func` raises on
one extension and `propagate_map_exceptions` is false. -/
def mapFailureRecord (name : String) : LogRecord :=
  { level := .error, message := "error calling " ++ name }

/-- Modelled from the spec: the `map` operation of the base
`ExtensionManager` (not under src/).  Per spec section 4.2 it applies
`func` to every stored Extension in order; with `propagate = true` the
first exception aborts the whole call and surfaces immediately (later
extensions are never processed); with `propagate = false` an exception
is logged, that extension's result omitted, and iteration continues. -/
def mapExtensions (propagate : Bool) (func : Extension → Except String Nat) :
    List Extension → Except String (List Nat × List LogRecord)
  | [] => .ok ([], [])
  | e :: rest =>
    match func e with
    | .error err =>
      if propagate then .error err
      else
        match mapExtensions propagate func rest with
        | .error err2 => .error err2
        | .ok (rs, logs) =>
          .ok (rs, mapFailureRecord e.name :: logs)
    | .ok r =>
      match mapExtensions propagate func rest with
      | .error err2 => .error err2
      | .ok (rs, logs) => .ok (r :: rs, logs)

/-- `map` called on a manager instance: governed by the instance's
`propagate_map_exceptions` flag over its stored extensions. -/
def EnabledExtensionManager.map (m : EnabledExtensionManager)
    (func : Extension → Except String Nat) :
    Except String (List Nat × List LogRecord) :=
  mapExtensions m.propagate_map_exceptions func m.extensions

/-- The extension (if any) that survives the real-mode pipeline for one
entry under a total predicate `p`: the base loader must have produced
it and `p` must accept it. -/
def keptEntry (p : Extension → Bool) (ep : EntryPoint) : Option Extension :=
  match ep.baseResult with
  | .produced e => if p e then some e else none
  | .skipped => none
  | .loadFailed => none

/-- The log records one entry contributes during real-mode construction
under a total predicate `p`. -/
def entryLogs (p : Extension → Bool) (ep : EntryPoint) : List LogRecord :=
  match ep.baseResult with
  | .produced e => if p e then [] else [ignoreRecord ep.name]
  | .skipped => []
  | .loadFailed => [loadFailureRecord ep.name]

/-- The extension the base loader produces for an entry, if any (the
"effective candidate" the entry contributes). -/
def producedExt (ep : EntryPoint) : Option Extension :=
  match ep.baseResult with
  | .produced e => some e
  | .skipped => none
  | .loadFailed => none

/-- Whether an entry is rejected by the predicate `p` in real mode: the
base loader produced an extension and `p` refused it. -/
def isRejected (p : Extension → Bool) (ep : EntryPoint) : Bool :=
  match ep.baseResult with
  | .produced e => !(p e)
  | .skipped => false
  | .loadFailed => false

/-! Concrete sample data used by witness and counterexample theorems. -/

def extAlpha : Extension := { name := "alpha", plugin := 0, obj := none }

def extBeta : Extension := { name := "beta", plugin := 1, obj := none }

def extGamma : Extension := { name := "gamma", plugin := 2, obj := none }

/-- The spec section 8 example predicate: accept any extension whose
name is not "beta". -/
def pNotB : Extension → Bool := fun e => decide (e.name ≠ "beta")

/-- A predicate rejecting everything. -/
def pFalse : Extension → Bool := fun _ => false

/-- A check function that raises on the extension named "beta". -/
def cfBoom : CheckFunc :=
  fun e => if e.name = "beta" then Except.error "boom" else Except.ok true

/-- A mapped function that raises on the extension named "beta" and
returns the plugin value otherwise. -/
def funcBoom : Extension → Except String Nat :=
  fun e => if e.name = "beta" then Except.error "boom" else Except.ok e.plugin

def epAlpha : EntryPoint := { name := "alpha", baseResult := .produced extAlpha }

def epBeta : EntryPoint := { name := "beta", baseResult := .produced extBeta }

def epGamma : EntryPoint := { name := "gamma", baseResult := .produced extGamma }

def epSkip : EntryPoint := { name := "skipped-entry", baseResult := .skipped }

def epFail : EntryPoint := { name := "broken", baseResult := .loadFailed }

def epsDemo : List EntryPoint := [epAlpha, epBeta]

def availDemo : List Extension := [extAlpha, extBeta]

def mgrDemo : EnabledExtensionManager :=
  { extensions := [extAlpha]
    propagate_map_exceptions := false
    check_func := some (pureCheck pNotB) }

def mgrMapTrue : EnabledExtensionManager :=
  { extensions := [extAlpha, extBeta, extGamma]
    propagate_map_exceptions := true
    check_func := none }

def mgrMapFalse : EnabledExtensionManager :=
  { extensions := [extAlpha, extBeta, extGamma]
    propagate_map_exceptions := false
    check_func := none }

/-! Shared lemmas about the embedded operations. -/

theorem dispatch_assigned (cf : CheckFunc) :
    load_one_plugin_dispatch (assignCheckFunc initialSelf cf) = load_one_plugin cf :=
  rfl

theorem load_one_plugin_ok_mem (cf : CheckFunc) (ep : EntryPoint)
    (optExt : Option Extension) (lgs : List LogRecord)
    (h : load_one_plugin cf ep = Except.ok (optExt, lgs)) :
    ∀ x ∈ optExt.toList, cf x = Except.ok true := by
  intro x hx
  obtain ⟨nm, br⟩ := ep
  cases br with
  | produced e =>
    simp only [load_one_plugin] at h
    cases hce : cf e with
    | error err => rw [hce] at h; simp at h
    | ok b =>
      rw [hce] at h
      cases b with
      | true =>
        simp only [if_true] at h
        rw [Except.ok.injEq, Prod.mk.injEq] at h
        obtain ⟨h1, h2⟩ := h
        subst h1
        simp only [Option.toList, List.mem_singleton] at hx
        subst hx
        exact hce
      | false =>
        simp only [Bool.false_eq_true, if_false] at h
        rw [Except.ok.injEq, Prod.mk.injEq] at h
        obtain ⟨h1, h2⟩ := h
        subst h1
        simp at hx
  | skipped =>
    simp only [load_one_plugin] at h
    rw [Except.ok.injEq, Prod.mk.injEq] at h
    obtain ⟨h1, h2⟩ := h
    subst h1
    simp at hx
  | loadFailed =>
    simp only [load_one_plugin] at h
    cases h

theorem load_plugins_ok_mem (loadOne : EntryPoint → Except PluginErr (Option Extension × List LogRecord))
    (cf : CheckFunc)
    (hloadOne : ∀ ep optExt lgs, loadOne ep = Except.ok (optExt, lgs) →
      ∀ x ∈ optExt.toList, cf x = Except.ok true)
    (eps : List EntryPoint) :
    ∀ (exts : List Extension) (logs : List LogRecord),
      load_plugins loadOne eps = Except.ok (exts, logs) →
      ∀ x ∈ exts, cf x = Except.ok true := by
  induction eps with
  | nil =>
    intro exts logs h x hx
    simp only [load_plugins] at h
    rw [Except.ok.injEq, Prod.mk.injEq] at h
    obtain ⟨h1, h2⟩ := h
    subst h1
    simp at hx
  | cons ep rest ih =>
    intro exts logs h x hx
    simp only [load_plugins] at h
    split at h
    next e heq => cases h
    next heq =>
      split at h
      next e2 heq2 => cases h
      next exts2 logs2 heq2 =>
        rw [Except.ok.injEq, Prod.mk.injEq] at h
        obtain ⟨h1, h2⟩ := h
        subst h1
        exact ih _ _ heq2 x hx
    next optExt entryLgs heq =>
      split at h
      next e2 heq2 => cases h
      next exts2 logs2 heq2 =>
        rw [Except.ok.injEq, Prod.mk.injEq] at h
        obtain ⟨h1, h2⟩ := h
        subst h1
        rcases List.mem_append.mp hx with hleft | hright
        · exact hloadOne ep optExt entryLgs heq x hleft
        · exact ih exts2 logs2 heq2 x hright

theorem filterByCheck_ok_mem (cf : CheckFunc) (xs : List Extension) :
    ∀ (ys : List Extension), filterByCheck cf xs = Except.ok ys →
      ∀ y ∈ ys, cf y = Except.ok true := by
  induction xs with
  | nil =>
    intro ys h y hy
    simp only [filterByCheck] at h
    rw [Except.ok.injEq] at h
    subst h
    simp at hy
  | cons x xs ih =>
    intro ys h y hy
    simp only [filterByCheck] at h
    cases hcx : cf x with
    | error err => rw [hcx] at h; cases h
    | ok b =>
      rw [hcx] at h
      cases hrest : filterByCheck cf xs with
      | error err => rw [hrest] at h; cases h
      | ok zs =>
        rw [hrest] at h
        rw [Except.ok.injEq] at h
        subst h
        cases b with
        | true =>
          simp only [if_true] at hy
          rcases List.mem_cons.mp hy with rfl | hmem
          · exact hcx
          · exact ih zs hrest y hmem
        | false =>
          simp only [Bool.false_eq_true, if_false] at hy
          exact ih zs hrest y hy

theorem filterByCheck_pure (p : Extension → Bool) (xs : List Extension) :
    filterByCheck (pureCheck p) xs = Except.ok (xs.filter p) := by
  induction xs with
  | nil => simp [filterByCheck]
  | cons x xs ih =>
    cases hp : p x with
    | true => simp [filterByCheck, pureCheck, ih, List.filter_cons, hp]
    | false => simp [filterByCheck, pureCheck, ih, List.filter_cons, hp]

theorem load_plugins_pure (p : Extension → Bool) (eps : List EntryPoint) :
    load_plugins (load_one_plugin (pureCheck p)) eps =
      Except.ok (eps.filterMap (keptEntry p), (eps.map (entryLogs p)).flatten) := by
  induction eps with
  | nil => simp [load_plugins]
  | cons ep rest ih =>
    obtain ⟨nm, br⟩ := ep
    cases br with
    | produced e =>
      cases hp : p e with
      | true =>
        simp [load_plugins, load_one_plugin, pureCheck, keptEntry, entryLogs, ih, hp,
          List.filterMap_cons]
      | false =>
        simp [load_plugins, load_one_plugin, pureCheck, keptEntry, entryLogs, ih, hp,
          List.filterMap_cons]
    | skipped =>
      simp [load_plugins, load_one_plugin, keptEntry, entryLogs, ih, List.filterMap_cons]
    | loadFailed =>
      simp [load_plugins, load_one_plugin, keptEntry, entryLogs, ih, List.filterMap_cons]

theorem keptEntry_eq_filter (p : Extension → Bool) (eps : List EntryPoint) :
    eps.filterMap (keptEntry p) = (eps.filterMap producedExt).filter p := by
  induction eps with
  | nil => simp
  | cons ep rest ih =>
    obtain ⟨nm, br⟩ := ep
    cases br with
    | produced e =>
      cases hp : p e with
      | true => simp [keptEntry, producedExt, List.filterMap_cons, List.filter_cons, hp, ih]
      | false => simp [keptEntry, producedExt, List.filterMap_cons, List.filter_cons, hp, ih]
    | skipped => simp [keptEntry, producedExt, List.filterMap_cons, ih]
    | loadFailed => simp [keptEntry, producedExt, List.filterMap_cons, ih]

theorem entryLogs_debug (p : Extension → Bool) (eps : List EntryPoint) :
    ((eps.map (entryLogs p)).flatten).filter (fun r => decide (r.level = LogLevel.debug)) =
      (eps.filter (isRejected p)).map (fun ep => ignoreRecord ep.name) := by
  induction eps with
  | nil => simp
  | cons ep rest ih =>
    obtain ⟨nm, br⟩ := ep
    cases br with
    | produced e =>
      cases hp : p e with
      | true => simp [entryLogs, isRejected, List.filter_cons, hp, ih]
      | false => simp [entryLogs, isRejected, ignoreRecord, List.filter_cons, hp, ih]
    | skipped => simp [entryLogs, isRejected, List.filter_cons, ih]
    | loadFailed => simp [entryLogs, isRejected, loadFailureRecord, List.filter_cons, ih]

theorem load_plugins_checkErr
    (loadOne : EntryPoint → Except PluginErr (Option Extension × List LogRecord))
    (exc : String) (ep : EntryPoint) (post : List EntryPoint)
    (hep : loadOne ep = Except.error (.checkFailure exc)) :
    ∀ (pre : List EntryPoint) (st : List Extension × List LogRecord),
      load_plugins loadOne pre = Except.ok st →
      load_plugins loadOne (pre ++ ep :: post) = Except.error exc := by
  intro pre
  induction pre with
  | nil =>
    intro st hpre
    simp only [List.nil_append, load_plugins, hep]
  | cons x xs ih =>
    intro st hpre
    cases hx : loadOne x with
    | error perr =>
      cases perr with
      | checkFailure e2 => simp [load_plugins, hx] at hpre
      | loadFailure =>
        cases hrest : load_plugins loadOne xs with
        | error e2 => simp [load_plugins, hx, hrest] at hpre
        | ok pr => simp only [List.cons_append, List.append_eq, load_plugins, hx, ih pr hrest]
    | ok pr =>
      obtain ⟨optExt, lgs⟩ := pr
      cases hrest : load_plugins loadOne xs with
      | error e2 => simp [load_plugins, hx, hrest] at hpre
      | ok pr2 => simp only [List.cons_append, List.append_eq, load_plugins, hx, ih pr2 hrest]

theorem filterByCheck_checkErr (cf : CheckFunc) (exc : String)
    (e : Extension) (post : List Extension)
    (he : cf e = Except.error exc) :
    ∀ (pre : List Extension) (kept : List Extension),
      filterByCheck cf pre = Except.ok kept →
      filterByCheck cf (pre ++ e :: post) = Except.error exc := by
  intro pre
  induction pre with
  | nil =>
    intro kept hpre
    simp only [List.nil_append, filterByCheck, he]
  | cons x xs ih =>
    intro kept hpre
    cases hcx : cf x with
    | error err => simp [filterByCheck, hcx] at hpre
    | ok b =>
      cases hrest : filterByCheck cf xs with
      | error err => simp [filterByCheck, hcx, hrest] at hpre
      | ok zs => simp only [List.cons_append, List.append_eq, filterByCheck, hcx, ih zs hrest]

/-! Claim theorems. -/

/-- C1: for an EnabledExtensionManager built with predicate `check_func`,
every Extension present in the final managed sequence satisfies the
predicate (`check_func` returns `ok true` on it), so no Extension for
which the predicate returns false (or raises) ever appears — in both the
real-discovery construction path and the test-instance construction
path. -/
theorem claim1_filter_invariant (cf : CheckFunc) (eps : List EntryPoint)
    (avail : List Extension) (pmx pmx' : Bool)
    (m m' : EnabledExtensionManager) (logs logs' : List LogRecord)
    (hreal : EnabledExtensionManager.init cf eps pmx = Except.ok (m, logs))
    (htest : make_test_instance avail cf pmx' = Except.ok (m', logs')) :
    (∀ x ∈ m.extensions, cf x = Except.ok true) ∧
    (∀ x ∈ m'.extensions, cf x = Except.ok true) := by
  constructor
  · intro x hx
    cases hlp : load_plugins (load_one_plugin cf) eps with
    | error e => simp [EnabledExtensionManager.init, dispatch_assigned, hlp] at hreal
    | ok pr =>
      obtain ⟨exts, lgs⟩ := pr
      simp only [EnabledExtensionManager.init, dispatch_assigned, hlp] at hreal
      rw [Except.ok.injEq, Prod.mk.injEq] at hreal
      obtain ⟨h1, h2⟩ := hreal
      subst h1
      exact load_plugins_ok_mem (load_one_plugin cf) cf
        (load_one_plugin_ok_mem cf) eps exts lgs hlp x hx
  · intro x hx
    cases hfc : filterByCheck cf avail with
    | error e => simp [make_test_instance, hfc] at htest
    | ok kept =>
      simp only [make_test_instance, hfc] at htest
      rw [Except.ok.injEq, Prod.mk.injEq] at htest
      obtain ⟨h1, h2⟩ := htest
      subst h1
      exact filterByCheck_ok_mem cf avail kept hfc x hx

/-- Witness for C1: concrete construction in both modes with the spec's
example predicate; the surviving extension satisfies it. -/
theorem claim1_filter_invariant_witness :
    pureCheck pNotB extAlpha = Except.ok true := by
  have h := claim1_filter_invariant (pureCheck pNotB) epsDemo availDemo false false
    mgrDemo mgrDemo [ignoreRecord "beta"] [] (by rfl) (by rfl)
  exact h.1 extAlpha (by decide)

/-- C2: in real-discovery mode, when the base loading step produces an
Extension, `_load_one_plugin` applies `check_func` to it; a true result
returns the very same Extension unchanged (and emits nothing), a false
result makes the method return no Extension, exactly like a skip apart
from the debug record. -/
theorem claim2_rejection_handling (cf : CheckFunc) (ep : EntryPoint) (ext : Extension)
    (hb : ep.baseResult = .produced ext) :
    (cf ext = Except.ok true → load_one_plugin cf ep = Except.ok (some ext, [])) ∧
    (cf ext = Except.ok false →
      load_one_plugin cf ep = Except.ok (none, [ignoreRecord ep.name])) := by
  constructor
  · intro hc
    simp [load_one_plugin, hb, hc]
  · intro hc
    simp [load_one_plugin, hb, hc]

/-- Witness for C2: an accepted entry is returned unchanged, a rejected
entry yields no Extension and one debug record. -/
theorem claim2_rejection_handling_witness :
    load_one_plugin (pureCheck pNotB) epAlpha = Except.ok (some extAlpha, []) ∧
    load_one_plugin (pureCheck pNotB) epBeta =
      Except.ok (none, [ignoreRecord "beta"]) := by
  constructor
  · exact (claim2_rejection_handling (pureCheck pNotB) epAlpha extAlpha rfl).1 rfl
  · exact (claim2_rejection_handling (pureCheck pNotB) epBeta extBeta rfl).2 rfl

/-- C3: `make_test_instance` filters the caller-supplied list with
`check_func` before delegating to the base test-instance constructor
(so the base receives only accepted extensions), forwards
`propagate_map_exceptions` unchanged, and records `check_func` on the
returned manager. -/
theorem claim3_test_instance_construction (cf : CheckFunc)
    (avail kept : List Extension) (pmx : Bool)
    (hf : filterByCheck cf avail = Except.ok kept) :
    make_test_instance avail cf pmx =
      Except.ok ({ base_make_test_instance kept pmx with check_func := some cf }, []) ∧
    (∀ x ∈ kept, cf x = Except.ok true) ∧
    (base_make_test_instance kept pmx).propagate_map_exceptions = pmx ∧
    ({ base_make_test_instance kept pmx with check_func := some cf } :
      EnabledExtensionManager).check_func = some cf := by
  refine ⟨?_, filterByCheck_ok_mem cf avail kept hf, rfl, rfl⟩
  simp [make_test_instance, hf]

/-- Witness for C3: the concrete test-instance construction delegates
the filtered list to the base constructor and records the predicate. -/
theorem claim3_test_instance_construction_witness :
    make_test_instance availDemo (pureCheck pNotB) false =
      Except.ok ({ base_make_test_instance [extAlpha] false with
                   check_func := some (pureCheck pNotB) }, []) :=
  (claim3_test_instance_construction (pureCheck pNotB) availDemo [extAlpha] false
    (by rfl)).1

/-- C4: for any ordered candidate list, the managed sequence is exactly
the accepted subsequence: in real mode the entries whose base load
produced an extension accepted by the predicate, in input order (and a
sublist of the produced candidates); in test mode exactly
`avail.filter p`, a sublist of the input list. -/
theorem claim4_order_preservation (p : Extension → Bool) (eps : List EntryPoint)
    (avail : List Extension) (pmx pmx' : Bool) :
    (EnabledExtensionManager.init (pureCheck p) eps pmx).map
        (fun r => r.1.extensions) = Except.ok (eps.filterMap (keptEntry p)) ∧
    (eps.filterMap (keptEntry p)).Sublist (eps.filterMap producedExt) ∧
    (make_test_instance avail (pureCheck p) pmx').map
        (fun r => r.1.extensions) = Except.ok (avail.filter p) ∧
    (avail.filter p).Sublist avail := by
  refine ⟨?_, ?_, ?_, List.filter_sublist avail⟩
  · simp [EnabledExtensionManager.init, dispatch_assigned, load_plugins_pure, Except.map]
  · rw [keptEntry_eq_filter]
    exact List.filter_sublist _
  · simp [make_test_instance, base_make_test_instance, filterByCheck_pure, Except.map]

/-- C5: given the same effective candidate Extensions (those the base
loader produces in real mode) and the same predicate, the two
construction paths produce managers with identical managed sequences:
same extensions, hence same names in the same order. -/
theorem claim5_test_real_equivalence (p : Extension → Bool) (eps : List EntryPoint)
    (avail : List Extension) (pmx pmx' : Bool)
    (hc : eps.filterMap producedExt = avail) :
    (EnabledExtensionManager.init (pureCheck p) eps pmx).map
        (fun r => r.1.extensions) =
      (make_test_instance avail (pureCheck p) pmx').map
        (fun r => r.1.extensions) ∧
    (EnabledExtensionManager.init (pureCheck p) eps pmx).map
        (fun r => r.1.extensions.map Extension.name) =
      (make_test_instance avail (pureCheck p) pmx').map
        (fun r => r.1.extensions.map Extension.name) := by
  constructor
  · simp [EnabledExtensionManager.init, dispatch_assigned, load_plugins_pure,
      make_test_instance, base_make_test_instance, filterByCheck_pure, Except.map,
      keptEntry_eq_filter, hc]
  · simp [EnabledExtensionManager.init, dispatch_assigned, load_plugins_pure,
      make_test_instance, base_make_test_instance, filterByCheck_pure, Except.map,
      keptEntry_eq_filter, hc]

/-- Witness for C5: on the spec's example data both construction paths
yield managers whose managed sequences coincide. -/
theorem claim5_test_real_equivalence_witness :
    (EnabledExtensionManager.init (pureCheck pNotB) epsDemo false).map
        (fun r => r.1.extensions) =
      (make_test_instance availDemo (pureCheck pNotB) false).map
        (fun r => r.1.extensions) :=
  (claim5_test_real_equivalence pNotB epsDemo availDemo false false (by rfl)).1

/-- C6: if `check_func` raises on a candidate Extension during
construction (in either mode), the exception propagates to the caller
and construction fails as a whole with no partial manager; earlier
load failures (tolerated per entry) and the map-time policy flag do not
absorb it. -/
theorem claim6_predicate_exception (cf : CheckFunc) (exc : String)
    (pre post : List EntryPoint) (ep : EntryPoint) (ex : Extension)
    (st : List Extension × List LogRecord)
    (hpre : load_plugins (load_one_plugin cf) pre = Except.ok st)
    (hb : ep.baseResult = .produced ex) (hraise : cf ex = Except.error exc)
    (apre apost : List Extension) (ae : Extension) (akept : List Extension)
    (hapre : filterByCheck cf apre = Except.ok akept)
    (haraise : cf ae = Except.error exc) (pmx : Bool) :
    EnabledExtensionManager.init cf (pre ++ ep :: post) pmx = Except.error exc ∧
    make_test_instance (apre ++ ae :: apost) cf pmx = Except.error exc := by
  constructor
  · have hep : load_one_plugin cf ep = Except.error (.checkFailure exc) := by
      simp [load_one_plugin, hb, hraise]
    have h := load_plugins_checkErr (load_one_plugin cf) exc ep post hep pre st hpre
    simp only [EnabledExtensionManager.init, dispatch_assigned, h]
  · have h := filterByCheck_checkErr cf exc ae apost haraise apre akept hapre
    simp only [make_test_instance, h]

/-- Witness for C6: a predicate raising on "beta" aborts both
construction paths with that exception, even after a tolerated load
failure, and entries after "beta" are never reached. -/
theorem claim6_predicate_exception_witness :
    EnabledExtensionManager.init cfBoom [epFail, epAlpha, epBeta, epGamma] false =
      Except.error "boom" ∧
    make_test_instance [extAlpha, extBeta, extGamma] cfBoom false =
      Except.error "boom" :=
  claim6_predicate_exception cfBoom "boom" [epFail, epAlpha] [epGamma] epBeta extBeta
    ([extAlpha], [loadFailureRecord "broken"]) (by rfl) rfl (by rfl)
    [extAlpha] [extGamma] extBeta [extAlpha] (by rfl) (by rfl) false

/-- C7 counterexample: in the test-instance construction path a
rejected extension produces no log record at all: with a predicate
rejecting `extAlpha`, construction succeeds with an empty managed
sequence and an empty log, not the single debug record the claim
requires of every construction path. -/
theorem claim7_counterexample :
    pureCheck pFalse extAlpha = Except.ok false ∧
    make_test_instance [extAlpha] (pureCheck pFalse) false =
      Except.ok ({ extensions := [], propagate_map_exceptions := false,
                   check_func := some (pureCheck pFalse) }, []) ∧
    ([] : List LogRecord) ≠ [ignoreRecord "alpha"] :=
  ⟨rfl, rfl, by decide⟩

/-- C7 (amended): in the REAL-discovery construction path every
extension rejected by the predicate produces exactly one debug-level
record identifying the rejected entry by name (and these are the only
debug records); the test-instance path emits no log records at all, so
rejections there are unlogged. -/
theorem claim7_rejection_logging (p : Extension → Bool) (eps : List EntryPoint)
    (avail : List Extension) (pmx pmx' : Bool) :
    (EnabledExtensionManager.init (pureCheck p) eps pmx).map
        (fun r => r.2.filter (fun rec => decide (rec.level = LogLevel.debug))) =
      Except.ok ((eps.filter (isRejected p)).map (fun ep => ignoreRecord ep.name)) ∧
    (make_test_instance avail (pureCheck p) pmx').map (fun r => r.2) =
      Except.ok ([] : List LogRecord) := by
  constructor
  · simp only [EnabledExtensionManager.init, dispatch_assigned, load_plugins_pure,
      Except.map, entryLogs_debug]
  · simp [make_test_instance, filterByCheck_pure, Except.map]

/-- C8: over a managed sequence `[a, b, c]` where `func` raises on `b`:
with `propagate_map_exceptions = true`, `map` surfaces the exception
immediately (the result does not depend on `func c`, which is left
unconstrained); with `false`, `map` returns the results for `a` and `c`
in order and logs one failure record for `b`.  Both constructors
forward the flag unchanged to the manager they build. -/
theorem claim8_map_policy (a b c : Extension) (ra rc : Nat) (exc : String)
    (func : Extension → Except String Nat) (m : EnabledExtensionManager)
    (hm : m.extensions = [a, b, c])
    (ha : func a = Except.ok ra) (hb2 : func b = Except.error exc) :
    (m.propagate_map_exceptions = true → m.map func = Except.error exc) ∧
    (m.propagate_map_exceptions = false → func c = Except.ok rc →
      m.map func = Except.ok ([ra, rc], [mapFailureRecord b.name])) ∧
    (∀ cf eps pmx stm lgs,
      EnabledExtensionManager.init cf eps pmx = Except.ok (stm, lgs) →
      stm.propagate_map_exceptions = pmx) ∧
    (∀ av cf pmx stm lgs, make_test_instance av cf pmx = Except.ok (stm, lgs) →
      stm.propagate_map_exceptions = pmx) := by
  refine ⟨?_, ?_, ?_, ?_⟩
  · intro hp
    simp [EnabledExtensionManager.map, hm, hp, mapExtensions, ha, hb2]
  · intro hp hc
    simp [EnabledExtensionManager.map, hm, hp, mapExtensions, ha, hb2, hc]
  · intro cf eps pmx stm lgs h
    cases hlp : load_plugins (load_one_plugin cf) eps with
    | error e => simp [EnabledExtensionManager.init, dispatch_assigned, hlp] at h
    | ok pr =>
      obtain ⟨exts, lgs2⟩ := pr
      simp only [EnabledExtensionManager.init, dispatch_assigned, hlp] at h
      rw [Except.ok.injEq, Prod.mk.injEq] at h
      obtain ⟨h1, h2⟩ := h
      subst h1
      rfl
  · intro av cf pmx stm lgs h
    cases hfc : filterByCheck cf av with
    | error e => simp [make_test_instance, hfc] at h
    | ok kept =>
      simp only [make_test_instance, hfc] at h
      rw [Except.ok.injEq, Prod.mk.injEq] at h
      obtain ⟨h1, h2⟩ := h
      subst h1
      rfl

/-- Witness for C8: with `func` raising on "beta", the fail-fast
manager surfaces the exception and the best-effort manager collects
the results for "alpha" and "gamma" with one failure record. -/
theorem claim8_map_policy_witness :
    mgrMapTrue.map funcBoom = Except.error "boom" ∧
    mgrMapFalse.map funcBoom = Except.ok ([0, 2], [mapFailureRecord "beta"]) := by
  constructor
  · exact (claim8_map_policy extAlpha extBeta extGamma 0 2 "boom" funcBoom mgrMapTrue
      rfl rfl rfl).1 rfl
  · exact (claim8_map_policy extAlpha extBeta extGamma 0 2 "boom" funcBoom mgrMapFalse
      rfl rfl rfl).2.1 rfl rfl

/-- C9: when the base per-entry loader yields no Extension (a skip),
`_load_one_plugin` returns the skip value as-is and the check function
is never invoked: the result is the same for any two check functions. -/
theorem claim9_skip_no_check (c1 c2 : CheckFunc) (ep : EntryPoint)
    (hb : ep.baseResult = .skipped) :
    load_one_plugin c1 ep = Except.ok (none, []) ∧
    load_one_plugin c1 ep = load_one_plugin c2 ep := by
  constructor <;> simp [load_one_plugin, hb]

/-- Witness for C9: on a concrete skipped entry the result is the skip
value, identical under two different check functions. -/
theorem claim9_skip_no_check_witness :
    load_one_plugin (pureCheck pNotB) epSkip = Except.ok (none, []) ∧
    load_one_plugin (pureCheck pNotB) epSkip =
      load_one_plugin (pureCheck pFalse) epSkip :=
  claim9_skip_no_check (pureCheck pNotB) (pureCheck pFalse) epSkip rfl

/-- C10: `__init__` assigns `self.check_func` before the base
constructor runs, so the instance state the base constructor dispatches
`_load_one_plugin` on already carries the caller-supplied predicate,
and real-mode construction equals the loading loop run with exactly
that predicate. -/
theorem claim10_assignment_order (cf : CheckFunc) :
    (assignCheckFunc initialSelf cf).check_func = some cf ∧
    load_one_plugin_dispatch (assignCheckFunc initialSelf cf) = load_one_plugin cf ∧
    (∀ eps pmx, EnabledExtensionManager.init cf eps pmx =
      match load_plugins (load_one_plugin cf) eps with
      | Except.error e => Except.error e
      | Except.ok (exts, logs) =>
        Except.ok ({ extensions := exts, propagate_map_exceptions := pmx,
                     check_func := some cf }, logs)) := by
  refine ⟨rfl, rfl, fun eps pmx => ?_⟩
  rfl

end Stevedore
